import Mathlib

/-!
Verification of the post-generation customizer (`hooks/post_gen_project.py`).

The development shallowly embeds the hook's pure logic:

* TOML documents (as produced by `toml.load`) are modelled as trees
  `TomlV` of string-keyed tables with opaque scalar leaves; Python dicts
  become ordered association lists, and the in-place mutations of
  `_remove_nested_section` become explicit state passing.  Python
  exceptions (`KeyError`, `TypeError`, `AttributeError`, `IndexError`)
  become an explicit `Except` error channel.
* Text files are modelled as `List Char`; `readlines`, `str.split`,
  `str.strip` and `writelines` are modelled character by character.
* The tool-selection dispatcher `setup_template_tools` is modelled as a
  pure function from the selection and flags to the list of removal
  actions it performs; filesystem paths are modelled as the list of
  components joined by `pathlib`'s `/` operator.
-/

/-- Python exceptions that the embedded code can raise. -/
inductive PyErr where
  | keyError
  | typeError
  | attributeError
  | indexError
  deriving DecidableEq, Repr

/-- A TOML document value: either an opaque scalar leaf (modelling
non-dict values such as numbers or booleans) or a table, i.e. an ordered
association list of string keys, modelling a Python dict. -/
inductive TomlV where
  | scalar : Nat → TomlV
  | table : List (String × TomlV) → TomlV

/-- Dict lookup on an association list (first binding wins, as in a
Python dict whose keys are unique). -/
def findT (k : String) : List (String × TomlV) → Option TomlV
  | [] => none
  | e :: es => if e.1 = k then some e.2 else findT k es

/-- `dict.pop(k, None)`: drop the binding for `k`, keep the order of the
remaining bindings. -/
def eraseKeyT (k : String) (es : List (String × TomlV)) : List (String × TomlV) :=
  es.filter (fun e => decide (e.1 ≠ k))

/-- Replace the value bound to `k` (present by assumption), keeping the
binding's position, as in-place `dict[k] = v` does. -/
def setKeyT (k : String) (v : TomlV) (es : List (String × TomlV)) :
    List (String × TomlV) :=
  es.map (fun e => if e.1 = k then (k, v) else e)

/-- Python truthiness of the values the pruning walk tests: an empty
dict is falsy.  (The walk only ever tests tables.) -/
def isEmptyT : TomlV → Bool
  | .table [] => true
  | _ => false

/-- Consecutive indexing `v[k₀][k₁]…`: a missing key raises `KeyError`,
indexing a non-dict raises `TypeError`. -/
def getPath : TomlV → List String → Except PyErr TomlV
  | v, [] => .ok v
  | .table es, k :: rest =>
    match findT k es with
    | some c => getPath c rest
    | none => .error .keyError
  | .scalar _, _ :: _ => .error .typeError

/-- Replace the node at a path that is known to exist;
on a dangling path the document is returned unchanged. -/
def setPath : TomlV → List String → TomlV → TomlV
  | _, [], v => v
  | .table es, k :: rest, v =>
    match findT k es with
    | some c => .table (setKeyT k (setPath c rest v) es)
    | none => .table es
  | .scalar n, _ :: _, _ => .scalar n

/-- The parent-section search of `_remove_nested_section`: follow each
key with `key in current_data` / `current_data[key]`.  A missing key
returns `none` (the Python code returns early: nothing to remove);
membership testing on a non-dict raises `TypeError`. -/
def descendTables : TomlV → List String → Except PyErr (Option TomlV)
  | v, [] => .ok (some v)
  | .table es, k :: rest =>
    match findT k es with
    | some c => descendTables c rest
    | none => .ok none
  | .scalar _, _ :: _ => .error .typeError

/-- `current_data.pop(key, None)`: only dicts have `.pop`, a scalar
raises `AttributeError`. -/
def pyPop : TomlV → String → Except PyErr TomlV
  | .table es, k => .ok (.table (eraseKeyT k es))
  | .scalar _, _ => .error .attributeError

/-- `keys.index(key)`: the index of the first occurrence. -/
def firstIdx (k : String) : List String → Nat
  | [] => 0
  | x :: xs => if x = k then 0 else firstIdx k xs + 1

/-- The upward-pruning loop of `_remove_nested_section`
(`for key in reversed(keys[:-1]): …`), iterating over the reversed
intermediate keys.  On every step the parent node is recomputed by
re-descending from the root along `keys[: keys.index(key)]`; if the
current section is empty it is popped from that parent and the walk
continues from the parent, otherwise the loop breaks.  The result is
the final document together with the final `current_data` and whether
the loop ended with `break`. -/
def walkLoop (keys : List String) :
    List String → TomlV → TomlV → Except PyErr (TomlV × TomlV × Bool)
  | [], doc, cur => .ok (doc, cur, false)
  | k :: ks, doc, cur =>
    match getPath doc (keys.take (firstIdx k keys)) with
    | .error e => .error e
    | .ok parent =>
      if isEmptyT cur then
        match pyPop parent k with
        | .error e => .error e
        | .ok parent' =>
          walkLoop keys ks (setPath doc (keys.take (firstIdx k keys)) parent') parent'
      else .ok (doc, cur, true)

/-- `_remove_nested_section(data, nested_key)` from
`hooks/post_gen_project.py`, lines 60–86, on the key list
`keys = nested_key.split(".")`.  Descend to the parent section (early
return if an intermediate key is absent), `pop` the last key, then run
the upward-pruning walk.  The in-place mutation of `data` is modelled
by returning the updated document. -/
def _remove_nested_section (data : TomlV) (keys : List String) :
    Except PyErr TomlV :=
  match descendTables data keys.dropLast with
  | .error e => .error e
  | .ok none => .ok data
  | .ok (some node) =>
    match keys.getLast? with
    | none => .error .indexError
    | some lastKey =>
      match pyPop node lastKey with
      | .error e => .error e
      | .ok node' =>
        match walkLoop keys keys.dropLast.reverse
            (setPath data keys.dropLast node') node' with
        | .error e => .error e
        | .ok r => .ok r.1

/-- Reference pruning semantics, written as the small recursive helper
the spec's design notes describe: after removing the final key, an
ancestor section is removed from its parent exactly when its updated
content is empty, and the first non-empty ancestor stops the pruning
(its parent keeps it with its remaining content).  `ok none` signals
that an intermediate key was absent and nothing was changed. -/
def removeRecAux : TomlV → List String → Except PyErr (Option TomlV)
  | _, [] => .error .indexError
  | .table es, [k] => .ok (some (.table (eraseKeyT k es)))
  | .scalar _, [_] => .error .attributeError
  | .table es, k :: r :: rest =>
    match findT k es with
    | none => .ok none
    | some c =>
      match removeRecAux c (r :: rest) with
      | .error e => .error e
      | .ok none => .ok none
      | .ok (some c') =>
        .ok (some (.table (if isEmptyT c' then eraseKeyT k es else setKeyT k c' es)))
  | .scalar _, _ :: _ :: _ => .error .typeError

/-- Top level of the reference pruning semantics. -/
def removeRec (data : TomlV) (keys : List String) : Except PyErr TomlV :=
  match removeRecAux data keys with
  | .error e => .error e
  | .ok none => .ok data
  | .ok (some d) => .ok d

/-- Descent that also records the ancestors visited on the way down:
for each intermediate key, the entries of the table it was found in. -/
def collectCrumbs : TomlV → List String →
    Except PyErr (Option (List (String × List (String × TomlV)) × TomlV))
  | v, [] => .ok (some ([], v))
  | .table es, k :: rest =>
    match findT k es with
    | none => .ok none
    | some c =>
      match collectCrumbs c rest with
      | .error e => .error e
      | .ok none => .ok none
      | .ok (some (crumbs, node)) => .ok (some ((k, es) :: crumbs, node))
  | .scalar _, _ :: _ => .error .typeError

/-- The direct backward walk over the ancestors already visited during
the initial descent: rebuild the document bottom-up, removing a child
section from its recorded parent when the child has become empty and
reinstating it otherwise. -/
def rebuildPruned : List (String × List (String × TomlV)) → TomlV → TomlV
  | [], child => child
  | (k, es) :: rest, child =>
    .table (if isEmptyT (rebuildPruned rest child)
            then eraseKeyT k es
            else setKeyT k (rebuildPruned rest child) es)

/-- The comparison implementation for the refinement claim, written
from the spec's design notes ("a direct backward walk over the
already-visited node list"): the descent and the final `pop` are the
same as the source's, but the empty-ancestor pruning walks the
ancestor list collected during the descent back up — pruning a child
that has become empty, reinstating it otherwise — instead of
re-descending from the root with `keys.index(key)` on every step. -/
def removeNestedBackward (data : TomlV) (keys : List String) :
    Except PyErr TomlV :=
  match collectCrumbs data keys.dropLast with
  | .error e => .error e
  | .ok none => .ok data
  | .ok (some (crumbs, node)) =>
    match keys.getLast? with
    | none => .error .indexError
    | some lastKey =>
      match pyPop node lastKey with
      | .error e => .error e
      | .ok node' => .ok (rebuildPruned crumbs node')

/-- The backward-walk removal at the granularity of `removeRecAux`:
`ok none` when an intermediate key is absent. -/
def backAux (data : TomlV) (keys : List String) : Except PyErr (Option TomlV) :=
  match collectCrumbs data keys.dropLast with
  | .error e => .error e
  | .ok none => .ok none
  | .ok (some (crumbs, node)) =>
    match keys.getLast? with
    | none => .error .indexError
    | some lastKey =>
      match pyPop node lastKey with
      | .error e => .error e
      | .ok node' => .ok (some (rebuildPruned crumbs node'))

/-- A document in which the dotted path `a.a.b` repeats the key `a`:
`{a: {a: {b: {}}, x: 1}}`. -/
def dupKeyDoc : TomlV :=
  .table [("a", .table [("a", .table [("b", .table [])]), ("x", .scalar 1)])]

/-- What the claimed pruning semantics produce for `a.a.b` on
`dupKeyDoc`: the inner `a` empties and is pruned, but the outer `a`
still holds `x`, so it must stay. -/
def dupKeyKept : TomlV := .table [("a", .table [("x", .scalar 1)])]

/-- `{a: {b: {}}}`: the last key `c` of `a.b.c` is absent. -/
def lastAbsentDoc : TomlV := .table [("a", .table [("b", .table [])])]

/-- The spec's running example:
`{tool: {pytest: {ini_options: {x: 1}}, ruff: {y: 2}}}`. -/
def pytestDoc : TomlV :=
  .table [("tool", .table [
    ("pytest", .table [("ini_options", .table [("x", .scalar 1)])]),
    ("ruff", .table [("y", .scalar 2)])])]

/-- `pytestDoc` after removing `tool.pytest.ini_options`. -/
def pytestDocAfter : TomlV :=
  .table [("tool", .table [("ruff", .table [("y", .scalar 2)])])]

/-- The whitespace characters `str.strip` removes (ASCII range). -/
def isPySpace (c : Char) : Bool :=
  c = ' ' || c = '\t' || c = '\n' || c = '\r' || c = '\x0b' || c = '\x0c'

/-- `str.strip()`: drop leading and trailing whitespace. -/
def pyStrip (l : List Char) : List Char :=
  ((l.dropWhile isPySpace).reverse.dropWhile isPySpace).reverse

/-- `str.split("\n")`: split at every newline; the separators are
dropped, and a trailing newline yields a trailing empty piece. -/
def splitNl : List Char → List (List Char)
  | [] => [[]]
  | c :: cs =>
    if c = '\n' then [] :: splitNl cs
    else
      match splitNl cs with
      | [] => [[c]]
      | l :: ls => (c :: l) :: ls

/-- `file.readlines()`: split the file into lines, each keeping its
terminating newline; a final unterminated line is kept as-is and an
empty file yields no lines. -/
def pyReadLines : List Char → List (List Char)
  | [] => []
  | c :: cs =>
    if c = '\n' then ['\n'] :: pyReadLines cs
    else
      match pyReadLines cs with
      | [] => [[c]]
      | l :: ls => (c :: l) :: ls

/-- The filter of `_remove_from_file`: a file line survives iff its
stripped form differs from the stripped form of every line of the block
to remove. -/
def keepLine (content_to_remove : List Char) (line : List Char) : Bool :=
  decide (pyStrip line ∉ (splitNl content_to_remove).map pyStrip)

/-- `_remove_from_file(file_path, content_to_remove)` from
`hooks/post_gen_project.py`, lines 40–57, modelled on the file's
content: read the lines, drop every line whose stripped form matches a
stripped line of the block, and write the remaining lines back
(`writelines` concatenates them). -/
def _remove_from_file (fileContent content_to_remove : List Char) : List Char :=
  ((pyReadLines fileContent).filter (keepLine content_to_remove)).flatten

/-- Shape of a `readlines` result: every line is non-empty, contains a
newline only as its final character, and only the last line may lack
the terminating newline. -/
inductive WfLines : List (List Char) → Prop
  | nil : WfLines []
  | last (l : List Char) : l ≠ [] → '\n' ∉ l → WfLines [l]
  | cons (l : List Char) (ls : List (List Char)) :
      '\n' ∉ l → WfLines ls → WfLines ((l ++ ['\n']) :: ls)

/-- `lint_requirements` (for `requirements.txt`). -/
def lint_requirements : String := "ruff~=0.1.8\n"

/-- `lint_pyproject_requirements` (for `pyproject.toml`). -/
def lint_pyproject_requirements : List String := ["tool.ruff", "tool.ruff.format"]

/-- `test_requirements` (for `requirements.txt`). -/
def test_requirements : String := "pytest-cov~=3.0\npytest-mock>=1.7.1, <2.0\npytest~=7.2"

/-- `test_pyproject_requirements` (for `pyproject.toml`). -/
def test_pyproject_requirements : List String :=
  ["tool.pytest.ini_options", "tool.coverage.report"]

/-- `docs_pyproject_requirements` (for `pyproject.toml`). -/
def docs_pyproject_requirements : List String := ["project.optional-dependencies"]

/-- `example_pipeline_requirements` (for `requirements.txt`). -/
def example_pipeline_requirements : String := "seaborn~=0.12.1\nscikit-learn~=1.0\n"

/-- A filesystem path: the list of components joined by `pathlib`'s `/`
operator, relative to the project directory. -/
abbrev PyPath := List String

/-- One removal/cleanup primitive performed by the hook, recorded with
its arguments.  `removeSuffixed` stands for the raw-data glob deletion,
`writeText` for emptying a file, `removeGlob` for the parameter-file
glob deletions, `removeExtras` for `_remove_extras_from_kedro_datasets`. -/
inductive HookAction where
  | removeFromFile (path : PyPath) (content_to_remove : String)
  | removeFromToml (path : PyPath) (sections_to_remove : List String)
  | removeDir (path : PyPath)
  | removeFile (path : PyPath)
  | removeSuffixed (dir : PyPath) (suffixes : List String)
  | writeText (path : PyPath) (text : String)
  | removeGlob (dir : PyPath) (pattern : String)
  | removeExtras (path : PyPath)
  deriving DecidableEq, Repr

/-- `_remove_pyspark_viz_starter_files` (lines 128–165) as the list of
cleanup actions it performs: delete the `.csv`/`.xlsx` raw data, empty
`conf/base/catalog.yml`, delete the generated-parameter files matching
the two glob patterns, delete the pipeline subdirectories (plus
`reporting` when Viz is selected), and delete the pipeline test file. -/
def _remove_pyspark_viz_starter_files (is_viz : Bool)
    (python_package_name : String) (current_dir : PyPath) : List HookAction :=
  [HookAction.removeSuffixed (current_dir ++ ["data/01_raw/"]) [".csv", ".xlsx"],
   HookAction.writeText (current_dir ++ ["conf/base/catalog.yml"]) "",
   HookAction.removeGlob (current_dir ++ ["conf/base/"]) "parameters_*.yml",
   HookAction.removeGlob (current_dir ++ ["conf/base/"]) "parameters/*.yml"]
  ++ (["data_science", "data_processing"] ++ (if is_viz then ["reporting"] else [])).map
      (fun sub => HookAction.removeDir
        (current_dir ++ ["src/" ++ python_package_name ++ "/pipelines/", sub]))
  ++ [HookAction.removeFile (current_dir ++ ["tests/pipelines/test_data_science.py"])]

/-- `setup_template_tools` (lines 197–243) as the list of actions it
performs, with the source's six conditionals in order: Linting,
Testing, Logging, Documentation, Data Structure (also gated on
`not example_pipeline`), and the PySpark/Kedro Viz starter cleanup
(presence-triggered, gated on `not example_pipeline`). -/
def setup_template_tools (selected_tools_list : List String)
    (requirements_file_path pyproject_file_path : PyPath)
    (python_package_name : String) (example_pipeline : Bool)
    (current_dir : PyPath) : List HookAction :=
  (if "Linting" ∉ selected_tools_list then
     [HookAction.removeFromFile requirements_file_path lint_requirements,
      HookAction.removeFromToml pyproject_file_path lint_pyproject_requirements]
   else [])
  ++ (if "Testing" ∉ selected_tools_list then
     [HookAction.removeFromFile requirements_file_path test_requirements,
      HookAction.removeFromToml pyproject_file_path test_pyproject_requirements,
      HookAction.removeDir (current_dir ++ ["tests"])]
   else [])
  ++ (if "Logging" ∉ selected_tools_list then
     [HookAction.removeFile (current_dir ++ ["conf/logging.yml"])]
   else [])
  ++ (if "Documentation" ∉ selected_tools_list then
     [HookAction.removeFromToml pyproject_file_path docs_pyproject_requirements,
      HookAction.removeDir (current_dir ++ ["docs"])]
   else [])
  ++ (if "Data Structure" ∉ selected_tools_list ∧ example_pipeline = false then
     [HookAction.removeDir (current_dir ++ ["data"])]
   else [])
  ++ (if ("PySpark" ∈ selected_tools_list ∨ "Kedro Viz" ∈ selected_tools_list)
        ∧ example_pipeline = false then
     _remove_pyspark_viz_starter_files
       (decide ("Kedro Viz" ∈ selected_tools_list)) python_package_name current_dir
     ++ [HookAction.removeFromFile requirements_file_path example_pipeline_requirements,
         HookAction.removeExtras requirements_file_path]
   else [])

/-- `NUMBER_TO_TOOLS_NAME` (lines 9–17) as the dict-lookup function on
the raw identifier (a string, modelled as `List Char`): `none` models
the `KeyError` a Python dict access raises on any other key. -/
def NUMBER_TO_TOOLS_NAME : List Char → Option String
  | ['1'] => some "Linting"
  | ['2'] => some "Testing"
  | ['3'] => some "Custom Logging"
  | ['4'] => some "Documentation"
  | ['5'] => some "Data Structure"
  | ['6'] => some "PySpark"
  | ['7'] => some "Kedro Viz"
  | _ => none

/-- The list comprehension
`[NUMBER_TO_TOOLS_NAME[tool] for tool in tools_numbers]`: the first
unknown identifier raises `KeyError`. -/
def convertEach : List (List Char) → Except PyErr (List String)
  | [] => .ok []
  | t :: ts =>
    match NUMBER_TO_TOOLS_NAME t with
    | none => .error .keyError
    | some n =>
      match convertEach ts with
      | .error e => .error e
      | .ok ns => .ok (n :: ns)

/-- `_convert_tool_numbers_to_readable_names` (lines 189–194): map the
raw identifiers through the catalog, then replace an empty result list
with the sentinel `["None"]`. -/
def _convert_tool_numbers_to_readable_names (tools_numbers : List (List Char)) :
    Except PyErr (List String) :=
  match convertEach tools_numbers with
  | .error e => .error e
  | .ok ns => .ok (if ns = [] then ["None"] else ns)

/-- `str.split(sep)` for a one-character separator, as used by `main`
on the raw `project_tools` answer (`selected_tools.split(",")`):
splitting the empty string yields `[""]`, never the empty list. -/
def pySplit (sep : Char) : List Char → List (List Char)
  | [] => [[]]
  | c :: cs =>
    if c = sep then [] :: pySplit sep cs
    else
      match pySplit sep cs with
      | [] => [[c]]
      | l :: ls => (c :: l) :: ls

theorem findT_ne_nil {k : String} {es : List (String × TomlV)} {c : TomlV}
    (h : findT k es = some c) : es ≠ [] := by
  intro he
  subst he
  simp [findT] at h

theorem isEmptyT_table_of_ne {es : List (String × TomlV)} (h : es ≠ []) :
    isEmptyT (.table es) = false := by
  cases es with
  | nil => exact absurd rfl h
  | cons e es => rfl

theorem findT_setKeyT {k : String} {es : List (String × TomlV)} {c : TomlV}
    (h : findT k es = some c) (v : TomlV) :
    findT k (setKeyT k v es) = some v := by
  induction es with
  | nil => simp [findT] at h
  | cons e es ih =>
    by_cases he : e.1 = k
    · simp [setKeyT, findT, he]
    · simp only [findT, if_neg he] at h
      simpa [setKeyT, findT, he] using ih h

theorem setKeyT_setKeyT (k : String) (v w : TomlV) (es : List (String × TomlV)) :
    setKeyT k v (setKeyT k w es) = setKeyT k v es := by
  induction es with
  | nil => rfl
  | cons e es ih =>
    by_cases he : e.1 = k <;> simp [setKeyT, he] <;>
      simpa [setKeyT] using ih

theorem eraseKeyT_setKeyT (k : String) (v : TomlV) (es : List (String × TomlV)) :
    eraseKeyT k (setKeyT k v es) = eraseKeyT k es := by
  induction es with
  | nil => rfl
  | cons e es ih =>
    by_cases he : e.1 = k <;> simp [setKeyT, eraseKeyT, he] <;>
      simpa [setKeyT, eraseKeyT] using ih

theorem setKeyT_ne_nil {k : String} {v : TomlV} {es : List (String × TomlV)}
    (h : es ≠ []) : setKeyT k v es ≠ [] := by
  simpa [setKeyT] using h

theorem getPath_wrap {k : String} {es : List (String × TomlV)} {c : TomlV}
    (h : findT k es = some c) (D : TomlV) (q : List String) :
    getPath (.table (setKeyT k D es)) (k :: q) = getPath D q := by
  simp [getPath, findT_setKeyT h D]

theorem setPath_wrap {k : String} {es : List (String × TomlV)} {c : TomlV}
    (h : findT k es = some c) (D v : TomlV) (q : List String) :
    setPath (.table (setKeyT k D es)) (k :: q) v
      = .table (setKeyT k (setPath D q v) es) := by
  simp [setPath, findT_setKeyT h D, setKeyT_setKeyT]

theorem walkLoop_append (K ks₁ ks₂ : List String) (d c : TomlV) :
    walkLoop K (ks₁ ++ ks₂) d c =
      match walkLoop K ks₁ d c with
      | .error e => .error e
      | .ok (d', c', true) => .ok (d', c', true)
      | .ok (d', c', false) => walkLoop K ks₂ d' c' := by
  induction ks₁ generalizing d c with
  | nil => simp [walkLoop]
  | cons k ks ih =>
    simp only [List.cons_append, walkLoop]
    cases hg : getPath d (K.take (firstIdx k K)) with
    | error e => rfl
    | ok parent =>
      cases hc : isEmptyT c with
      | false => simp
      | true =>
        simp only [if_true]
        cases hp : pyPop parent k with
        | error e => rfl
        | ok parent' => exact ih _ _

theorem walkLoop_wrap {k : String} {es : List (String × TomlV)} {c : TomlV}
    (hk : findT k es = some c) (keys' : List String) :
    ∀ ks : List String, (∀ q ∈ ks, q ≠ k) → ∀ D cur : TomlV,
    walkLoop (k :: keys') ks (.table (setKeyT k D es)) cur
      = (walkLoop keys' ks D cur).map
          (fun r => (.table (setKeyT k r.1 es), r.2.1, r.2.2)) := by
  intro ks
  induction ks with
  | nil =>
    intro _ D cur
    simp [walkLoop, Except.map]
  | cons q ks ih =>
    intro hq D cur
    have hqk : ¬(k = q) := fun h => hq q (by simp) h.symm
    have hks : ∀ x ∈ ks, x ≠ k := fun x hx => hq x (by simp [hx])
    have hfi : firstIdx q (k :: keys') = firstIdx q keys' + 1 := by
      simp [firstIdx, hqk]
    simp only [walkLoop, hfi, List.take_succ_cons]
    rw [getPath_wrap hk]
    cases hg : getPath D (keys'.take (firstIdx q keys')) with
    | error e => simp [Except.map]
    | ok parent =>
      cases hc : isEmptyT cur with
      | false => simp [Except.map]
      | true =>
        simp only [if_true]
        cases hp : pyPop parent q with
        | error e => simp [Except.map]
        | ok parent' =>
          dsimp only
          rw [setPath_wrap hk]
          exact ih hks _ _

/-- Core correspondence: under pairwise-distinct intermediate keys, the
re-descending upward walk computes exactly the backward rebuild over the
ancestors collected during the descent. -/
theorem walkLoop_core :
    ∀ (p : List String) (lk : String) (data node node' : TomlV)
      (crumbs : List (String × List (String × TomlV))),
    p.Nodup →
    collectCrumbs data p = .ok (some (crumbs, node)) →
    ∃ C B,
      walkLoop (p ++ [lk]) p.reverse (setPath data p node') node' =
        .ok (rebuildPruned crumbs node', C, B)
      ∧ (B = true → isEmptyT (rebuildPruned crumbs node') = false)
      ∧ (B = false → C = rebuildPruned crumbs node') := by
  intro p
  induction p with
  | nil =>
    intro lk data node node' crumbs _ hc
    simp only [collectCrumbs, Except.ok.injEq, Option.some.injEq, Prod.mk.injEq] at hc
    obtain ⟨rfl, rfl⟩ := hc
    refine ⟨node', false, ?_, by simp, fun _ => rfl⟩
    simp [walkLoop, setPath, rebuildPruned]
  | cons k p' ih =>
    intro lk data node node' crumbs hnd hc
    obtain ⟨hkp, hnd'⟩ := List.nodup_cons.mp hnd
    cases data with
    | scalar n => simp [collectCrumbs] at hc
    | table es =>
      cases hf : findT k es with
      | none => simp [collectCrumbs, hf] at hc
      | some c =>
        cases hcc : collectCrumbs c p' with
        | error e => simp [collectCrumbs, hf, hcc] at hc
        | ok o =>
          cases o with
          | none => simp [collectCrumbs, hf, hcc] at hc
          | some pr =>
            obtain ⟨crumbs', node₀⟩ := pr
            simp only [collectCrumbs, hf, hcc, Except.ok.injEq, Option.some.injEq,
              Prod.mk.injEq] at hc
            obtain ⟨rfl, rfl⟩ := hc
            obtain ⟨C', B', hrun, hb1, hb0⟩ := ih lk c node₀ node' crumbs' hnd' hcc
            have hqks : ∀ q ∈ p'.reverse, q ≠ k := by
              intro q hq
              exact fun h => hkp (h ▸ List.mem_reverse.mp hq)
            have hsp : setPath (.table es) (k :: p') node'
                = .table (setKeyT k (setPath c p' node') es) := by
              simp [setPath, hf]
            have hwrap := walkLoop_wrap hf (p' ++ [lk]) p'.reverse hqks
              (setPath c p' node') node'
            have hes : es ≠ [] := findT_ne_nil hf
            have hstep :
                walkLoop ((k :: p') ++ [lk]) (k :: p').reverse
                  (setPath (.table es) (k :: p') node') node' =
                match walkLoop (k :: (p' ++ [lk])) p'.reverse
                    (.table (setKeyT k (setPath c p' node') es)) node' with
                | .error e => .error e
                | .ok (d', c', true) => .ok (d', c', true)
                | .ok (d', c', false) =>
                  walkLoop (k :: (p' ++ [lk])) [k] d' c' := by
              rw [hsp, List.reverse_cons, List.cons_append]
              exact walkLoop_append (k :: (p' ++ [lk])) p'.reverse [k] _ node'
            rw [hstep, hwrap, hrun]
            cases B' with
            | true =>
              have hR : isEmptyT (rebuildPruned crumbs' node') = false := hb1 rfl
              refine ⟨C', true, ?_, ?_, by simp⟩
              · simp only [Except.map]
                have : rebuildPruned ((k, es) :: crumbs') node'
                    = .table (setKeyT k (rebuildPruned crumbs' node') es) := by
                  simp [rebuildPruned, hR]
                rw [this]
              · intro _
                have : rebuildPruned ((k, es) :: crumbs') node'
                    = .table (setKeyT k (rebuildPruned crumbs' node') es) := by
                  simp [rebuildPruned, hR]
                rw [this]
                exact isEmptyT_table_of_ne (setKeyT_ne_nil hes)
            | false =>
              have hC : C' = rebuildPruned crumbs' node' := hb0 rfl
              subst hC
              simp only [Except.map]
              have hfi0 : firstIdx k (k :: (p' ++ [lk])) = 0 := by
                simp [firstIdx]
              cases hR : isEmptyT (rebuildPruned crumbs' node') with
              | true =>
                refine ⟨.table (eraseKeyT k es), false, ?_, by simp, fun _ => ?_⟩
                · simp only [walkLoop, hfi0, List.take_zero, getPath, hR, if_true,
                    pyPop, setPath]
                  simp [rebuildPruned, hR, eraseKeyT_setKeyT]
                · simp [rebuildPruned, hR]
              | false =>
                refine ⟨rebuildPruned crumbs' node', true, ?_, fun _ => ?_, by simp⟩
                · simp only [walkLoop, hfi0, List.take_zero, getPath, hR]
                  simp [rebuildPruned, hR]
                · have : rebuildPruned ((k, es) :: crumbs') node'
                      = .table (setKeyT k (rebuildPruned crumbs' node') es) := by
                    simp [rebuildPruned, hR]
                  rw [this]
                  exact isEmptyT_table_of_ne (setKeyT_ne_nil hes)

/-- The plain parent search is the crumb-collecting descent with the
ancestor list forgotten. -/
theorem descend_eq_collect : ∀ (p : List String) (data : TomlV),
    descendTables data p = (collectCrumbs data p).map (Option.map (·.2)) := by
  intro p
  induction p with
  | nil => intro data; cases data <;> rfl
  | cons k p' ih =>
    intro data
    cases data with
    | scalar n => rfl
    | table es =>
      cases hf : findT k es with
      | none => simp [descendTables, collectCrumbs, hf, Except.map]
      | some c =>
        simp only [descendTables, collectCrumbs, hf, ih c]
        cases hcc : collectCrumbs c p' with
        | error e => rfl
        | ok o => cases o with
          | none => rfl
          | some pr => rfl

/-- Helper for the concatenated form of the dotted path. -/
theorem code_eq_backward_concat (p : List String) (lk : String) (data : TomlV)
    (hnd : p.Nodup) :
    _remove_nested_section data (p ++ [lk]) = removeNestedBackward data (p ++ [lk]) := by
  have hdrop : (p ++ [lk]).dropLast = p := by simp
  have hlast : (p ++ [lk]).getLast? = some lk := by simp
  cases hcc : collectCrumbs data p with
  | error e =>
    have hd : descendTables data p = .error e := by
      rw [descend_eq_collect, hcc]; rfl
    simp [_remove_nested_section, removeNestedBackward, hdrop, hd, hcc]
  | ok o =>
    cases o with
    | none =>
      have hd : descendTables data p = .ok none := by
        rw [descend_eq_collect, hcc]; rfl
      simp [_remove_nested_section, removeNestedBackward, hdrop, hd, hcc]
    | some pr =>
      obtain ⟨crumbs, node⟩ := pr
      have hd : descendTables data p = .ok (some node) := by
        rw [descend_eq_collect, hcc]; rfl
      cases hp : pyPop node lk with
      | error e =>
        simp [_remove_nested_section, removeNestedBackward, hdrop, hlast, hd, hcc, hp]
      | ok node' =>
        obtain ⟨C, B, hrun, -, -⟩ := walkLoop_core p lk data node node' crumbs hnd hcc
        simp [_remove_nested_section, removeNestedBackward, hdrop, hlast, hd, hcc,
          hp, hrun]

/-- The re-descending upward walk of the source and the direct backward
walk over the visited ancestors agree whenever the intermediate keys of
the dotted path are pairwise distinct. -/
theorem code_eq_backward_of_nodup (data : TomlV) (keys : List String)
    (hnd : keys.dropLast.Nodup) :
    _remove_nested_section data keys = removeNestedBackward data keys := by
  cases hk : keys with
  | nil => cases data <;> rfl
  | cons a l =>
    obtain ⟨p, lk, hpk⟩ : ∃ p lk, a :: l = p ++ [lk] :=
      ⟨(a :: l).dropLast, (a :: l).getLast (by simp),
        (List.dropLast_append_getLast (by simp)).symm⟩
    rw [hk] at hnd
    rw [hpk] at hnd ⊢
    simp only [List.dropLast_concat] at hnd
    exact code_eq_backward_concat _ _ data hnd

theorem recAux_eq_backAux : ∀ (keys : List String) (data : TomlV),
    removeRecAux data keys = backAux data keys := by
  intro keys
  induction keys with
  | nil => intro data; cases data <;> rfl
  | cons k rest ih =>
    intro data
    cases rest with
    | nil =>
      cases data with
      | scalar n => rfl
      | table es => rfl
    | cons r rs =>
      cases data with
      | scalar n => rfl
      | table es =>
        cases hf : findT k es with
        | none => simp [removeRecAux, backAux, collectCrumbs, hf]
        | some c =>
          have hih := ih c
          simp only [removeRecAux, hf, backAux, List.dropLast_cons₂,
            collectCrumbs]
          rw [hih]
          simp only [backAux]
          cases hcc : collectCrumbs c (r :: rs).dropLast with
          | error e => rfl
          | ok o =>
            cases o with
            | none => rfl
            | some pr =>
              obtain ⟨crumbs', node₀⟩ := pr
              have hgl : (k :: r :: rs).getLast? = (r :: rs).getLast? := by
                simp [List.getLast?_cons_cons]
              rw [hgl]
              cases hl : (r :: rs).getLast? with
              | none => rfl
              | some lk =>
                cases hp : pyPop node₀ lk with
                | error e => simp [hp]
                | ok node' => simp [hp, rebuildPruned]

/-- The recursive pruning semantics and the backward walk agree on every
document and every dotted path. -/
theorem rec_eq_backward (data : TomlV) (keys : List String) :
    removeRec data keys = removeNestedBackward data keys := by
  rw [removeRec, recAux_eq_backAux, backAux, removeNestedBackward]
  cases hcc : collectCrumbs data keys.dropLast with
  | error e => rfl
  | ok o =>
    cases o with
    | none => rfl
    | some pr =>
      obtain ⟨crumbs, node⟩ := pr
      dsimp only
      cases hl : keys.getLast? with
      | none => rfl
      | some lk =>
        dsimp only
        cases hp : pyPop node lk with
        | error e => rfl
        | ok node' => rfl

/-- C2, counterexample.  The claim quantifies over *every* document and
dotted path, but on the path `a.a.b` (duplicate key `a`) the source's
`keys.index(key)` re-descent pops the outer `a` — an ancestor that still
holds `x` — and the final document is `{}` instead of `{a: {x: 1}}`:
a non-empty ancestor was removed. -/
theorem c2_counterexample :
    _remove_nested_section dupKeyDoc ["a", "a", "b"] = .ok (.table [])
      ∧ _remove_nested_section dupKeyDoc ["a", "a", "b"] ≠ .ok dupKeyKept := by
  constructor
  · rfl
  · intro h
    rw [show _remove_nested_section dupKeyDoc ["a", "a", "b"] = .ok (.table []) from rfl]
      at h
    simp [dupKeyKept] at h

/-- C2, amended.  For every document and every dotted path whose
intermediate keys are pairwise distinct, `_remove_nested_section`
implements exactly the claimed pruning semantics `removeRec`: the final
key is removed, every ancestor that becomes empty is collapsed, and the
upward pruning stops at the first ancestor whose remaining content is
non-empty, which is never removed. -/
theorem c2_remove_nested_section_prunes_empty_ancestors_only
    (data : TomlV) (keys : List String) (hnd : keys.dropLast.Nodup) :
    _remove_nested_section data keys = removeRec data keys := by
  rw [code_eq_backward_of_nodup data keys hnd, rec_eq_backward]

/-- C2, witness: the spec's own example, `tool.pytest.ini_options` with
a sibling `tool.ruff`, evaluated concretely. -/
theorem c2_witness :
    _remove_nested_section pytestDoc ["tool", "pytest", "ini_options"]
      = removeRec pytestDoc ["tool", "pytest", "ini_options"]
      ∧ _remove_nested_section pytestDoc ["tool", "pytest", "ini_options"]
      = .ok pytestDocAfter :=
  ⟨c2_remove_nested_section_prunes_empty_ancestors_only pytestDoc
      ["tool", "pytest", "ini_options"] (by decide), rfl⟩

/-- C3, counterexample.  The claim says the operation is a no-op when
*some key along the path* is absent, but when only the **last** key is
absent the source still runs the upward walk and prunes ancestors that
were already empty: removing `a.b.c` from `{a: {b: {}}}` (where `c` is
absent) yields `{}`, not the unchanged document. -/
theorem c3_counterexample :
    _remove_nested_section lastAbsentDoc ["a", "b", "c"] = .ok (.table [])
      ∧ _remove_nested_section lastAbsentDoc ["a", "b", "c"] ≠ .ok lastAbsentDoc := by
  constructor
  · rfl
  · intro h
    rw [show _remove_nested_section lastAbsentDoc ["a", "b", "c"] = .ok (.table [])
      from rfl] at h
    simp [lastAbsentDoc] at h

/-- C3, amended.  If an **intermediate** key is absent — the descent
over `keys[:-1]` reaches a table that lacks the next key — then
`_remove_nested_section` is a no-op: it returns the document exactly as
it was and raises nothing.  (In particular removing `a.b.c` from `{}`
leaves `{}` unchanged.) -/
theorem c3_remove_nested_section_noop_when_intermediate_absent
    (data : TomlV) (keys : List String)
    (h : descendTables data keys.dropLast = .ok none) :
    _remove_nested_section data keys = .ok data := by
  rw [_remove_nested_section, h]

/-- C3, witness: removing `a.b.c` from the empty document `{}` leaves
`{}` unchanged and raises nothing. -/
theorem c3_witness :
    _remove_nested_section (.table []) ["a", "b", "c"] = .ok (.table []) :=
  c3_remove_nested_section_noop_when_intermediate_absent
    (.table []) ["a", "b", "c"] (by rfl)

/-- C7, counterexample.  The re-descending upward walk is *not*
observationally equivalent to the direct backward walk over the visited
ancestors on every input: on `{a: {a: {b: {}}, x: 1}}` with path
`a.a.b`, the backward walk keeps `{a: {x: 1}}` while the source's
re-descent (which uses the *first* index of the key) empties the whole
document. -/
theorem c7_counterexample :
    removeNestedBackward dupKeyDoc ["a", "a", "b"] = .ok dupKeyKept
      ∧ _remove_nested_section dupKeyDoc ["a", "a", "b"]
        ≠ removeNestedBackward dupKeyDoc ["a", "a", "b"] := by
  constructor
  · rfl
  · intro h
    rw [show _remove_nested_section dupKeyDoc ["a", "a", "b"] = .ok (.table [])
        from rfl,
      show removeNestedBackward dupKeyDoc ["a", "a", "b"] = .ok dupKeyKept
        from rfl] at h
    simp [dupKeyKept] at h

/-- C7, amended.  Whenever the intermediate keys of the dotted path are
pairwise distinct — which holds for every path the hook actually
removes — the source's re-descending upward walk produces exactly the
same result (same document or same exception) as the direct backward
walk over the ancestor nodes already visited during the initial
descent. -/
theorem c7_redescending_walk_equals_backward_walk
    (data : TomlV) (keys : List String) (hnd : keys.dropLast.Nodup) :
    _remove_nested_section data keys = removeNestedBackward data keys :=
  code_eq_backward_of_nodup data keys hnd

/-- C7, witness: both walks evaluated on removing
`tool.coverage.report` from `{tool: {coverage: {report: {s: 3}},
ruff: 1}}` — a distinct-keys path whose upward walk both prunes an
ancestor (`coverage` empties and is removed) and then stops at a
non-empty one (`tool` keeps `ruff`), so the re-descent is exercised on
both branches. -/
theorem c7_witness :
    _remove_nested_section
        (.table [("tool", .table [("coverage", .table [("report", .table [("s", .scalar 3)])]),
          ("ruff", .scalar 1)])])
        ["tool", "coverage", "report"]
      = removeNestedBackward
        (.table [("tool", .table [("coverage", .table [("report", .table [("s", .scalar 3)])]),
          ("ruff", .scalar 1)])])
        ["tool", "coverage", "report"] :=
  c7_redescending_walk_equals_backward_walk _ _ (by decide)

theorem pyReadLines_no_nl {l : List Char} (hne : l ≠ []) (hnl : '\n' ∉ l) :
    pyReadLines l = [l] := by
  induction l with
  | nil => exact absurd rfl hne
  | cons c cs ih =>
    have hc : ¬(c = '\n') := fun h => hnl (by simp [h])
    have hcs : '\n' ∉ cs := fun h => hnl (List.mem_cons_of_mem _ h)
    simp only [pyReadLines, if_neg hc]
    cases cs with
    | nil => rfl
    | cons d ds => rw [ih (by simp) hcs]

theorem pyReadLines_newline_seg {l : List Char} (hnl : '\n' ∉ l) (rest : List Char) :
    pyReadLines (l ++ '\n' :: rest) = (l ++ ['\n']) :: pyReadLines rest := by
  induction l with
  | nil => simp [pyReadLines]
  | cons c cs ih =>
    have hc : ¬(c = '\n') := fun h => hnl (by simp [h])
    have hcs : '\n' ∉ cs := fun h => hnl (List.mem_cons_of_mem _ h)
    simp only [List.cons_append, pyReadLines, if_neg hc]
    rw [show cs.append ('\n' :: rest) = cs ++ '\n' :: rest from rfl, ih hcs]

theorem wfLines_pyReadLines (cs : List Char) : WfLines (pyReadLines cs) := by
  induction cs with
  | nil => exact .nil
  | cons c cs ih =>
    by_cases hc : c = '\n'
    · subst hc
      simp only [pyReadLines, if_pos rfl]
      exact .cons [] _ (by simp) ih
    · simp only [pyReadLines, if_neg hc]
      cases hls : pyReadLines cs with
      | nil => exact .last [c] (by simp) (by simp [List.mem_singleton]; exact fun h => hc h.symm)
      | cons l ls =>
        rw [hls] at ih
        cases ih with
        | last l hne hnl =>
          refine .last (c :: l) (by simp) ?_
          intro h
          rcases List.mem_cons.mp h with h | h
          · exact hc h.symm
          · exact hnl h
        | cons l ls hnl hwf =>
          dsimp only
          rw [show c :: (l ++ ['\n']) = (c :: l) ++ ['\n'] by simp]
          refine .cons (c :: l) ls ?_ hwf
          intro h
          rcases List.mem_cons.mp h with h | h
          · exact hc h.symm
          · exact hnl h

theorem wfLines_filter (p : List Char → Bool) {ls : List (List Char)}
    (h : WfLines ls) : WfLines (ls.filter p) := by
  induction h with
  | nil => exact .nil
  | last l hne hnl =>
    by_cases hp : p l
    · simpa [List.filter_cons, hp] using WfLines.last l hne hnl
    · simpa [List.filter_cons, hp] using WfLines.nil
  | cons l ls hnl hwf ih =>
    by_cases hp : p (l ++ ['\n'])
    · simpa [List.filter_cons, hp] using WfLines.cons l _ hnl ih
    · simpa [List.filter_cons, hp] using ih

theorem pyReadLines_flatten {ls : List (List Char)} (h : WfLines ls) :
    pyReadLines ls.flatten = ls := by
  induction h with
  | nil => rfl
  | last l hne hnl =>
    simpa using pyReadLines_no_nl hne hnl
  | cons l ls hnl hwf ih =>
    have hjoin : ((l ++ ['\n']) :: ls).flatten = l ++ '\n' :: ls.flatten := by
      simp
    rw [hjoin, pyReadLines_newline_seg hnl, ih]

/-- C8.  `_remove_from_file` is idempotent: running the
read–filter–write cycle a second time with the same removal block
leaves the file content produced by the first run unchanged. -/
theorem c8_remove_from_file_idempotent (f b : List Char) :
    _remove_from_file (_remove_from_file f b) b = _remove_from_file f b := by
  unfold _remove_from_file
  rw [pyReadLines_flatten (wfLines_filter _ (wfLines_pyReadLines f)),
    List.filter_filter]
  simp [Bool.and_self]

theorem splitNl_ne_nil : ∀ cs : List Char, splitNl cs ≠ [] := by
  intro cs
  induction cs with
  | nil => simp [splitNl]
  | cons c cs ih =>
    by_cases hc : c = '\n'
    · simp [splitNl, hc]
    · simp only [splitNl, if_neg hc]
      cases h : splitNl cs with
      | nil => simp
      | cons l ls => simp

theorem splitNl_concat_nl_length (init : List Char) :
    2 ≤ (splitNl (init ++ ['\n'])).length := by
  induction init with
  | nil => simp [splitNl]
  | cons c cs ih =>
    by_cases hc : c = '\n'
    · have hstep : splitNl ((c :: cs) ++ ['\n']) = [] :: splitNl (cs ++ ['\n']) := by
        simp [List.cons_append, splitNl, hc]
      rw [hstep, List.length_cons]
      omega
    · simp only [List.cons_append, splitNl, if_neg hc]
      cases h : splitNl (cs ++ ['\n']) with
      | nil => exact absurd h (splitNl_ne_nil _)
      | cons l ls =>
        rw [h] at ih
        simpa using ih

theorem splitNl_concat_nl_getLast (init : List Char) :
    (splitNl (init ++ ['\n'])).getLast? = some [] := by
  induction init with
  | nil => rfl
  | cons c cs ih =>
    by_cases hc : c = '\n'
    · simp only [List.cons_append, splitNl, if_pos hc]
      cases h : splitNl (cs ++ ['\n']) with
      | nil => exact absurd h (splitNl_ne_nil _)
      | cons l ls =>
        rw [h] at ih
        rw [List.getLast?_cons_cons]
        exact ih
    · simp only [List.cons_append, splitNl, if_neg hc]
      cases h : splitNl (cs ++ ['\n']) with
      | nil => exact absurd h (splitNl_ne_nil _)
      | cons l ls =>
        rw [h] at ih
        cases ls with
        | nil =>
          have h2 := splitNl_concat_nl_length cs
          rw [h] at h2
          simp at h2
        | cons m ms =>
          rw [List.getLast?_cons_cons] at ih
          rw [List.getLast?_cons_cons]
          exact ih

theorem nil_mem_splitNl {b : List Char} (hb : b.getLast? = some '\n') :
    [] ∈ splitNl b := by
  obtain ⟨init, rfl⟩ := List.getLast?_eq_some_iff.mp hb
  exact List.mem_of_getLast?_eq_some (splitNl_concat_nl_getLast init)

/-- C10.  When the removal block ends with a newline (as the statically
declared blocks such as `lint_requirements = "ruff~=0.1.8\n"` do),
splitting the block on `"\n"` yields a trailing empty string, whose
stripped form matches the stripped form of every blank or
whitespace-only file line — so `_remove_from_file` also deletes every
such line: no line of the rewritten file strips to the empty string. -/
theorem c10_trailing_newline_block_deletes_blank_lines
    (f b : List Char) (hb : b.getLast? = some '\n') :
    ∀ l ∈ pyReadLines (_remove_from_file f b), pyStrip l ≠ [] := by
  intro l hl
  rw [_remove_from_file,
    pyReadLines_flatten (wfLines_filter _ (wfLines_pyReadLines f))] at hl
  have hk : keepLine b l = true := (List.mem_filter.mp hl).2
  have hk' : pyStrip l ∉ (splitNl b).map pyStrip := of_decide_eq_true hk
  intro hstrip
  apply hk'
  rw [hstrip]
  exact List.mem_map_of_mem pyStrip (nil_mem_splitNl hb)

/-- C10, witness: removing the `lint_requirements` block from the file
`" \nruff~=0.1.8\nx\n"` deletes both the whitespace-only line and the
matching requirement line, and the surviving line `"x\n"` does not
strip to the empty string. -/
theorem c10_witness : pyStrip ['x', '\n'] ≠ [] :=
  c10_trailing_newline_block_deletes_blank_lines
    " \nruff~=0.1.8\nx\n".data lint_requirements.data (by decide)
    ['x', '\n'] (by decide)

/-- Membership in a conditional block of the dispatcher. -/
theorem mem_ite_list {c : Prop} [Decidable c] {a : HookAction} {l : List HookAction} :
    (a ∈ if c then l else []) ↔ c ∧ a ∈ l := by
  by_cases h : c <;> simp [h]

/-- Every name in the catalog differs from the string `"Logging"` that
the dispatcher's Logging guard tests (the catalog name for tool `"3"`
is `"Custom Logging"`). -/
theorem tools_name_ne_logging {t : List Char} {n : String}
    (h : NUMBER_TO_TOOLS_NAME t = some n) : n ≠ "Logging" := by
  unfold NUMBER_TO_TOOLS_NAME at h
  split at h <;> cases h <;> decide

theorem tools_name_ne_none_str {t : List Char} {n : String}
    (h : NUMBER_TO_TOOLS_NAME t = some n) : n ≠ "None" := by
  unfold NUMBER_TO_TOOLS_NAME at h
  split at h <;> cases h <;> decide

theorem convertEach_mem {ts : List (List Char)} {ns : List String}
    (h : convertEach ts = .ok ns) :
    ∀ n ∈ ns, ∃ t, NUMBER_TO_TOOLS_NAME t = some n := by
  induction ts generalizing ns with
  | nil =>
    cases h
    simp
  | cons t ts ih =>
    simp only [convertEach] at h
    cases hl : NUMBER_TO_TOOLS_NAME t with
    | none => rw [hl] at h; cases h
    | some m =>
      rw [hl] at h
      cases hc : convertEach ts with
      | error e => rw [hc] at h; cases h
      | ok ms =>
        rw [hc] at h
        cases h
        intro n hn
        rcases List.mem_cons.mp hn with rfl | hn
        · exact ⟨t, hl⟩
        · exact ih hc n hn

/-- No canonicalized selection — whether real names or the `["None"]`
sentinel — ever contains the string `"Logging"`. -/
theorem logging_not_in_converted {nums : List (List Char)} {sel : List String}
    (h : _convert_tool_numbers_to_readable_names nums = .ok sel) :
    "Logging" ∉ sel := by
  unfold _convert_tool_numbers_to_readable_names at h
  cases hc : convertEach nums with
  | error e => rw [hc] at h; cases h
  | ok ns =>
    rw [hc] at h
    cases h
    by_cases hn : ns = []
    · simp [hn]
    · simp only [if_neg hn]
      intro hmem
      obtain ⟨t, ht⟩ := convertEach_mem hc _ hmem
      exact tools_name_ne_logging ht rfl

theorem convertEach_error {ts : List (List Char)} {t : List Char}
    (ht : t ∈ ts) (hn : NUMBER_TO_TOOLS_NAME t = none) :
    convertEach ts = .error .keyError := by
  induction ts with
  | nil => cases ht
  | cons u ts ih =>
    rcases List.mem_cons.mp ht with rfl | ht'
    · simp [convertEach, hn]
    · cases hl : NUMBER_TO_TOOLS_NAME u with
      | none => simp [convertEach, hl]
      | some m => simp [convertEach, hl, ih ht']

theorem convertEach_length {ts : List (List Char)} {ns : List String}
    (h : convertEach ts = .ok ns) : ns.length = ts.length := by
  induction ts generalizing ns with
  | nil => cases h; rfl
  | cons t ts ih =>
    simp only [convertEach] at h
    cases hl : NUMBER_TO_TOOLS_NAME t with
    | none => rw [hl] at h; cases h
    | some m =>
      rw [hl] at h
      cases hc : convertEach ts with
      | error e => rw [hc] at h; cases h
      | ok ms =>
        rw [hc] at h
        cases h
        simp [ih hc]

theorem pySplit_ne_nil (sep : Char) : ∀ cs : List Char, pySplit sep cs ≠ [] := by
  intro cs
  induction cs with
  | nil => simp [pySplit]
  | cons c cs ih =>
    by_cases hc : c = sep
    · simp [pySplit, hc]
    · simp only [pySplit, if_neg hc]
      cases h : pySplit sep cs with
      | nil => simp
      | cons l ls => simp

/-- C1.  The claim says that a canonical selection containing the
catalog name of tool `"3"` (`"Custom Logging"`) retains
`conf/logging.yml`.  The code instead tests
`"Logging" not in selected_tools_list`, and no canonicalized selection
ever contains `"Logging"` (the catalog names are `"Custom Logging"`
etc., and the sentinel is `"None"`), so the Logging removal rule fires
for *every* selection produced by canonicalization: the hook always
deletes `conf/logging.yml`, contradicting the claim and the spec's
end-to-end example for answers `{tools: "1,3"}`. -/
theorem c1_logging_config_removed_despite_selection
    (nums : List (List Char)) (sel : List String)
    (req pyproj : PyPath) (pkg : String) (ep : Bool) (cur : PyPath)
    (h : _convert_tool_numbers_to_readable_names nums = .ok sel) :
    HookAction.removeFile (cur ++ ["conf/logging.yml"]) ∈
      setup_template_tools sel req pyproj pkg ep cur := by
  have hl := logging_not_in_converted h
  simp [setup_template_tools, mem_ite_list, hl]

/-- C1, witness: the spec's end-to-end input `"1,3"` canonicalizes to
`["Linting", "Custom Logging"]`, and the hook still removes
`conf/logging.yml`. -/
theorem c1_witness :
    HookAction.removeFile (["proj"] ++ ["conf/logging.yml"]) ∈
      setup_template_tools ["Linting", "Custom Logging"] ["requirements.txt"]
        ["pyproject.toml"] "pkg" false ["proj"] :=
  c1_logging_config_removed_despite_selection [['1'], ['3']]
    ["Linting", "Custom Logging"] ["requirements.txt"] ["pyproject.toml"]
    "pkg" false ["proj"] (by rfl)

/-- C4, counterexample.  With the Data Structure tool absent but
`example_pipeline = true`, the claim demands that the `data` directory
be removed regardless of the flag; the code's conditional
`"Data Structure" not in … and not example_pipeline` does not fire. -/
theorem c4_counterexample :
    "Data Structure" ∉ ["None"]
      ∧ HookAction.removeDir ["data"] ∉
          setup_template_tools ["None"] ["requirements.txt"] ["pyproject.toml"]
            "pkg" true [] := by
  constructor
  · decide
  · decide

/-- C4, amended.  The `data` directory removal fires **iff** the Data
Structure category is absent from the selection *and* the
`example_pipeline` flag is false: contrary to the dispatcher-contract
sentence, this category also depends on the flag. -/
theorem c4_data_dir_removed_iff (sel : List String) (req pyproj : PyPath)
    (pkg : String) (ep : Bool) (cur : PyPath) :
    HookAction.removeDir (cur ++ ["data"]) ∈
        setup_template_tools sel req pyproj pkg ep cur
      ↔ ("Data Structure" ∉ sel ∧ ep = false) := by
  simp [setup_template_tools, mem_ite_list, _remove_pyspark_viz_starter_files,
    List.append_right_inj]

/-- C5, counterexample.  An empty raw selection canonicalizes to
`["None"]`, but it is false that "all removal rules for all categories
fire": the PySpark/Kedro Viz category's cleanup is presence-triggered
and never fires for `["None"]` — here even with `example_pipeline =
false`, the catalog-emptying action is not performed. -/
theorem c5_counterexample :
    _convert_tool_numbers_to_readable_names [] = .ok ["None"]
      ∧ HookAction.writeText ["conf/base/catalog.yml"] "" ∉
          setup_template_tools ["None"] ["requirements.txt"] ["pyproject.toml"]
            "pkg" false [] := by
  constructor
  · rfl
  · decide

/-- C5, amended.  An empty raw selection canonicalizes to exactly
`["None"]`; the sentinel matches no real category name, so every
membership test fails: the four absence-triggered rules (Linting,
Testing, Logging, Documentation) all fire, the Data Structure rule
fires iff `example_pipeline` is false, and the presence-triggered
PySpark/Kedro Viz cleanup does not fire. -/
theorem c5_empty_selection_all_absence_rules_fire (ep : Bool)
    (req pyproj : PyPath) (pkg : String) (cur : PyPath) :
    _convert_tool_numbers_to_readable_names [] = .ok ["None"]
    ∧ HookAction.removeFromFile req lint_requirements ∈
        setup_template_tools ["None"] req pyproj pkg ep cur
    ∧ HookAction.removeFromToml pyproj lint_pyproject_requirements ∈
        setup_template_tools ["None"] req pyproj pkg ep cur
    ∧ HookAction.removeFromFile req test_requirements ∈
        setup_template_tools ["None"] req pyproj pkg ep cur
    ∧ HookAction.removeDir (cur ++ ["tests"]) ∈
        setup_template_tools ["None"] req pyproj pkg ep cur
    ∧ HookAction.removeFile (cur ++ ["conf/logging.yml"]) ∈
        setup_template_tools ["None"] req pyproj pkg ep cur
    ∧ HookAction.removeFromToml pyproj docs_pyproject_requirements ∈
        setup_template_tools ["None"] req pyproj pkg ep cur
    ∧ HookAction.removeDir (cur ++ ["docs"]) ∈
        setup_template_tools ["None"] req pyproj pkg ep cur
    ∧ (HookAction.removeDir (cur ++ ["data"]) ∈
        setup_template_tools ["None"] req pyproj pkg ep cur ↔ ep = false)
    ∧ HookAction.writeText (cur ++ ["conf/base/catalog.yml"]) "" ∉
        setup_template_tools ["None"] req pyproj pkg ep cur
    ∧ HookAction.removeExtras req ∉
        setup_template_tools ["None"] req pyproj pkg ep cur := by
  refine ⟨rfl, ?_, ?_, ?_, ?_, ?_, ?_, ?_, ?_, ?_, ?_⟩ <;>
    simp [setup_template_tools, mem_ite_list, _remove_pyspark_viz_starter_files,
      List.append_right_inj, lint_requirements, test_requirements,
      example_pipeline_requirements, lint_pyproject_requirements,
      test_pyproject_requirements, docs_pyproject_requirements]

/-- C6.  Every action of the PySpark/Kedro Viz starter cleanup — the
raw-data deletion, catalog emptying, parameter-glob deletions, pipeline
subdirectory deletions, test-file deletion, the example-requirements
block removal and the kedro-datasets extras stripping — is performed
exactly when `"PySpark"` or `"Kedro Viz"` is in the selection **and**
`example_pipeline` is false; in particular with `example_pipeline =
true` none of them execute. -/
theorem c6_pyspark_viz_cleanup_iff (sel : List String) (req pyproj : PyPath)
    (pkg : String) (ep : Bool) (cur : PyPath) (a : HookAction)
    (ha : a ∈ _remove_pyspark_viz_starter_files
        (decide ("Kedro Viz" ∈ sel)) pkg cur
      ++ [HookAction.removeFromFile req example_pipeline_requirements,
          HookAction.removeExtras req]) :
    a ∈ setup_template_tools sel req pyproj pkg ep cur ↔
      (("PySpark" ∈ sel ∨ "Kedro Viz" ∈ sel) ∧ ep = false) := by
  by_cases hc : ("PySpark" ∈ sel ∨ "Kedro Viz" ∈ sel) ∧ ep = false
  · exact iff_of_true (List.mem_append_right _ (by rw [if_pos hc]; exact ha)) hc
  · refine iff_of_false ?_ hc
    intro hin
    simp only [setup_template_tools, List.mem_append, mem_ite_list, if_neg hc,
      List.not_mem_nil, or_false, List.mem_cons, List.mem_singleton] at hin
    rcases hin with ((((⟨-, rfl | rfl⟩ | ⟨-, rfl | rfl | rfl⟩) | ⟨-, rfl⟩) |
        ⟨-, rfl | rfl⟩) | ⟨⟨-, -⟩, rfl⟩) <;>
      simp [_remove_pyspark_viz_starter_files, lint_requirements, test_requirements,
        example_pipeline_requirements, List.append_right_inj] at ha

/-- C6, witness: the catalog-emptying action with `"PySpark"` selected,
evaluated at `example_pipeline = false` (it runs) — dually, with the
condition's right side false the membership is false. -/
theorem c6_witness :
    HookAction.writeText (["proj"] ++ ["conf/base/catalog.yml"]) "" ∈
        setup_template_tools ["PySpark"] ["requirements.txt"] ["pyproject.toml"]
          "pkg" false ["proj"]
      ↔ (("PySpark" ∈ ["PySpark"] ∨ "Kedro Viz" ∈ ["PySpark"]) ∧ false = false) :=
  c6_pyspark_viz_cleanup_iff ["PySpark"] ["requirements.txt"] ["pyproject.toml"]
    "pkg" false ["proj"] _ (by decide)

/-- C9.  `_convert_tool_numbers_to_readable_names` raises `KeyError`
for any input containing an identifier outside the seven catalog keys;
`main`'s `"".split(",")` yields `[""]` (never the empty list), so
through the command-line path an empty `project_tools` string raises
`KeyError` and the `["None"]` sentinel branch is unreachable. -/
theorem c9_empty_selection_string_raises_keyerror :
    (∀ (ts : List (List Char)) (t : List Char), t ∈ ts →
        NUMBER_TO_TOOLS_NAME t = none →
        _convert_tool_numbers_to_readable_names ts = .error .keyError)
    ∧ _convert_tool_numbers_to_readable_names (pySplit ',' []) = .error .keyError
    ∧ (∀ s : List Char,
        _convert_tool_numbers_to_readable_names (pySplit ',' s) ≠ .ok ["None"]) := by
  refine ⟨?_, ?_, ?_⟩
  · intro ts t ht hn
    simp [_convert_tool_numbers_to_readable_names, convertEach_error ht hn]
  · rfl
  · intro s h
    unfold _convert_tool_numbers_to_readable_names at h
    cases hc : convertEach (pySplit ',' s) with
    | error e => rw [hc] at h; cases h
    | ok ns =>
      rw [hc] at h
      dsimp only at h
      by_cases hn : ns = []
      · have hlen := convertEach_length hc
        rw [hn] at hlen
        exact pySplit_ne_nil ',' s (List.length_eq_zero.mp hlen.symm)
      · rw [if_neg hn] at h
        cases h
        obtain ⟨t, ht⟩ := convertEach_mem hc "None" (by simp)
        exact tools_name_ne_none_str ht rfl

/-- C9, witness: the unknown identifier `"9"` raises `KeyError`, and
splitting the empty selection string never reaches the `["None"]`
branch. -/
theorem c9_witness :
    _convert_tool_numbers_to_readable_names [['9']] = .error .keyError
      ∧ _convert_tool_numbers_to_readable_names (pySplit ',' []) ≠ .ok ["None"] :=
  ⟨c9_empty_selection_string_raises_keyerror.1 [['9']] ['9'] (by decide) (by rfl),
   c9_empty_selection_string_raises_keyerror.2.2 []⟩
